import Mathlib

/-
Verification of the decode-and-segment engine of the novel splitter
(src/streamlit_app.py). The embedding works at the character level: a
decoded text is a List Char, Python slicing and stripping are modelled
directly, and the two external engines the program calls into (the codec
machinery behind bytes.decode and the regular-expression engine behind
re.search / re.finditer) are abstracted as oracle functions passed to the
embedded code, exactly at the call boundaries the source uses them.
-/

/-- Whitespace test modelling the character class removed by the Python
method str.strip on ASCII text: space, tab, newline, carriage return,
vertical tab and form feed. -/
def isSpace (c : Char) : Bool :=
  c = ' ' || c = '\t' || c = '\n' || c = '\r' || c = '\x0b' || c = '\x0c'

/-- Python str.strip: remove leading and trailing whitespace. -/
def pyStrip (s : List Char) : List Char :=
  ((s.dropWhile isSpace).reverse.dropWhile isSpace).reverse

/-- Python slice text[a:b] on a character list, for 0 <= a, b clamped to
the length, empty when b <= a. -/
def pySlice (s : List Char) (a b : Nat) : List Char :=
  (s.take b).drop a

/-- A regex match as the chapter loop consumes it (lines 100-103 of the
source): start offset, end offset, and the captured group named full. -/
structure RMatch where
  s : Nat
  e : Nat
  full : List Char
  deriving DecidableEq

/-- One chapter record, as appended at line 106. -/
structure Chapter where
  title : List Char
  body : List Char
  deriving DecidableEq

/-- Fuel-indexed scan loop of re.finditer: the oracle mat gives, for a
start position, the match the compiled pattern yields there (its end
offset and captured full group), if any. The scan tries successive start
positions from pos up to len, emits each match found, and resumes at
max(end, pos + 1), the resumption rule of the engine for non-overlapping
matches. The fuel argument only forces termination; finditer supplies
enough fuel for the whole text. -/
def finditerAux (mat : Nat → Option (Nat × List Char)) (len : Nat) :
    Nat → Nat → List RMatch
  | 0, _ => []
  | fuel + 1, pos =>
    if len < pos then []
    else
      match mat pos with
      | none => finditerAux mat len fuel (pos + 1)
      | some pr => ⟨pos, pr.1, pr.2⟩ :: finditerAux mat len fuel (max pr.1 (pos + 1))

/-- list(re.finditer(pattern, text)) at line 94, for a text of length len:
all non-overlapping matches in order of appearance. -/
def finditer (mat : Nat → Option (Nat × List Char)) (len : Nat) : List RMatch :=
  finditerAux mat len (len + 1) 0

/-- The chapter loop of split_novel (lines 99-106): for match i the title
is the trimmed captured group full, and the body is the trimmed slice of
the text from the end offset of match i to the start offset of match i+1,
or to the end of the text for the last match. -/
def chapterLoop (text : List Char) : List RMatch → List Chapter
  | [] => []
  | m :: rest =>
    let stop := match rest with
      | [] => text.length
      | m2 :: _ => m2.s
    ⟨pyStrip m.full, pyStrip (pySlice text m.e stop)⟩ :: chapterLoop text rest

/-- Exclusive upper bound of the body span of match i (line 102): the
start offset of match i+1 when it exists, else the text length tl. -/
def nextStart (tl : Nat) (ms : List RMatch) (i : Nat) : Nat :=
  match ms.get? (i + 1) with
  | some m => m.s
  | none => tl

/-- A raised Python exception, by class: the generic Exception with a
message raised at line 97, or the AttributeError raised when line 86
calls .strip() on the Python value None. -/
inductive PyError where
  | exn (msg : List Char)
  | attributeError (msg : List Char)
  deriving DecidableEq

/-- The exception raised at line 97 when the chapter pattern has no match:
this exception value plays the role the spec names NoChaptersFoundError. -/
def NoChaptersFoundError : PyError :=
  .exn (("未找到章节内容起始标记 (chapter start marker not found)").data)

/-- Message of the AttributeError raised when .strip() is called on None
(the real interpreter text quotes NoneType and strip). -/
def attrMsg : List Char :=
  ("NoneType object has no attribute strip").data

/-- The groupdict of a match of the book title pattern (line 76): values
of the named groups title, title_alt, author, author_alt; none models the
Python value None, i.e. a group absent from the pattern or present but
not participating in the match. -/
structure TitleGroups where
  title : Option (List Char)
  title_alt : Option (List Char)
  author : Option (List Char)
  author_alt : Option (List Char)
  deriving DecidableEq

/-- Python a or b for an optional string a: b when a is None or the empty
string (both falsy), else a. -/
def pyOrStr (a : Option (List Char)) (b : List Char) : List Char :=
  match a with
  | some v => if v.isEmpty then b else v
  | none => b

/-- Lines 74-83: book name from groups title / title_alt with the default
UnknownBook; a missing title match gives the default directly. -/
def bookNameOf (titleRes : Option TitleGroups) : List Char :=
  match titleRes with
  | some g => pyOrStr g.title (pyOrStr g.title_alt (("UnknownBook").data))
  | none => ("UnknownBook").data

/-- Lines 74-83: author from groups author / author_alt with the default
UnknownAuthor; a missing title match gives the default directly. -/
def authorOf (titleRes : Option TitleGroups) : List Char :=
  match titleRes with
  | some g => pyOrStr g.author (pyOrStr g.author_alt (("UnknownAuthor").data))
  | none => ("UnknownAuthor").data

/-- Lines 85-88. The oracle value summaryRes is the outcome of the summary
search together with the lookup groupdict().get(summary-key, empty): the
outer none is no match of the summary pattern; some none is a match whose
group named summary holds the Python value None (the group exists in the
pattern but did not participate in the match); some (some v) is the
captured text v, covering also the empty-string default that .get supplies
when the pattern has no group named summary. Line 86 calls .strip() on the
lookup result, so the some none case raises AttributeError; afterwards an
empty summary falls back to the default text at line 88. -/
def computeSummary (summaryRes : Option (Option (List Char))) :
    Except PyError (List Char) :=
  match summaryRes with
  | none =>
    .ok (("No summary available.").data)
  | some none => .error (.attributeError attrMsg)
  | some (some v) =>
    if (pyStrip v).isEmpty then .ok (("No summary available.").data)
    else .ok (pyStrip v)

/-- Line 114: the title of the last chapter, or the empty string for an
empty chapter list. -/
def latestOf (cs : List Chapter) : List Char :=
  match cs.getLast? with
  | some c => c.title
  | none => []

/-- The meta dictionary of the result (lines 110-116). -/
structure Meta where
  bookName : List Char
  author : List Char
  latestChapter : List Char
  summary : List Char
  deriving DecidableEq

/-- The full return value of split_novel (lines 110-118). -/
structure SplitResult where
  meta : Meta
  chapters : List Chapter
  deriving DecidableEq

/-- Lines 93-106: find all matches of the chapter pattern over the text;
raise the no-chapters exception when there are none, else build the
chapter list. The oracle mat stands for the compiled chapter pattern. -/
def partitionChapters (text : List Char)
    (mat : Nat → Option (Nat × List Char)) : Except PyError (List Chapter) :=
  let ms := finditer mat text.length
  if ms.isEmpty then .error NoChaptersFoundError
  else .ok (chapterLoop text ms)

/-- split_novel (lines 71-118). The regex engine is abstracted at the
boundaries the source calls it: titleRes is the groupdict of the book
title search at line 74, summaryRes is the summary group lookup of
line 86 as described at computeSummary, and mat is the position oracle of
the compiled chapter pattern of line 93. The summary step of line 86 runs
before the chapter step of lines 93-97, so its exception takes priority,
as in the source. -/
def split_novel (text : List Char) (titleRes : Option TitleGroups)
    (summaryRes : Option (Option (List Char)))
    (mat : Nat → Option (Nat × List Char)) : Except PyError SplitResult :=
  match computeSummary summaryRes with
  | .error err => .error err
  | .ok summary =>
    match partitionChapters text mat with
    | .error err => .error err
    | .ok chapters =>
      .ok ⟨⟨bookNameOf titleRes, authorOf titleRes, latestOf chapters, summary⟩,
           chapters⟩

/-- try_decode_until_marker (lines 59-68). For the fixed input bytes,
decode models raw.decode(enc): ok gives the decoded text, error a raised
exception (a strict decode failure, or an unknown encoding name). search
models re.search of the marker pattern over a decoded text: ok true is a
match, ok false no match, error a raised exception (an invalid pattern).
Either kind of exception is caught by the try block of line 61 and the
loop moves on to the next candidate; exhausting the candidates returns
the Python pair (None, None), modelled as none. -/
def try_decode_until_marker (decode : String → Except String (List Char))
    (search : List Char → Except String Bool) :
    List String → Option (List Char × String)
  | [] => none
  | enc :: rest =>
    match decode enc with
    | .error _ => try_decode_until_marker decode search rest
    | .ok text =>
      match search text with
      | .error _ => try_decode_until_marker decode search rest
      | .ok true => some (text, enc)
      | .ok false => try_decode_until_marker decode search rest

/- Concrete oracles used by witnesses and counterexamples. -/

/-- A chapter oracle with no match anywhere. -/
def matNone : Nat → Option (Nat × List Char) := fun _ => none

/-- A decode oracle that decodes every candidate to the same text. -/
def decodeAll : String → Except String (List Char) := fun _ => .ok (("x").data)

/-- A decode oracle that fails on every candidate (no byte sequence is
valid under any encoding tried). -/
def decodeFail : String → Except String (List Char) := fun _ =>
  .error ("invalid byte sequence")

/-- A search oracle modelling a syntactically invalid marker pattern: the
search raises on every text. -/
def searchErr : List Char → Except String Bool := fun _ =>
  .error ("invalid pattern")

/-- A search oracle modelling a valid pattern that matches no text. -/
def searchFalse : List Char → Except String Bool := fun _ => .ok false

/-- A search oracle modelling a valid pattern that matches every text. -/
def searchTrue : List Char → Except String Bool := fun _ => .ok true

/-- A decode oracle for the candidate-order scenario: the first candidate
decodes to marker-free mojibake, the second to text carrying a chapter
marker, any other candidate fails. -/
def decode3 : String → Except String (List Char) := fun enc =>
  if enc = "gbk" then .ok (("mojibake").data)
  else if enc = "utf-8" then .ok (("第1章 x").data)
  else .error ("unknown encoding")

/-- The search oracle paired with decode3: only the properly decoded text
contains a chapter marker. -/
def search3 : List Char → Except String Bool := fun t =>
  .ok (decide (t = ("第1章 x").data))

/- Helper lemmas about try_decode_until_marker. -/

/-- When no candidate both decodes and matches, the loop reaches the final
return and yields none. -/
theorem tdm_none_of_fail (decode : String → Except String (List Char))
    (search : List Char → Except String Bool) :
    ∀ encs : List String,
      (∀ enc ∈ encs, ∀ t, decode enc = .ok t → search t ≠ .ok true) →
      try_decode_until_marker decode search encs = none := by
  intro encs
  induction encs with
  | nil => intro _; rfl
  | cons enc rest ih =>
    intro h
    have hrest := fun y hy => h y (List.mem_cons_of_mem _ hy)
    cases hd : decode enc with
    | error msg => simp [try_decode_until_marker, hd, ih hrest]
    | ok t =>
      cases hs : search t with
      | error msg => simp [try_decode_until_marker, hd, hs, ih hrest]
      | ok b =>
        cases b with
        | true => exact absurd hs (h enc (by simp) t hd)
        | false => simp [try_decode_until_marker, hd, hs, ih hrest]

/-- A candidate that decodes and matches forces a successful result. -/
theorem tdm_ne_none_of_success (decode : String → Except String (List Char))
    (search : List Char → Except String Bool) :
    ∀ (encs : List String) (enc : String) (t : List Char), enc ∈ encs →
      decode enc = .ok t → search t = .ok true →
      try_decode_until_marker decode search encs ≠ none := by
  intro encs
  induction encs with
  | nil => intro enc t h; simp at h
  | cons e0 rest ih =>
    intro enc t henc hd hs
    rcases List.mem_cons.mp henc with heq | hmem
    · subst heq
      simp [try_decode_until_marker, hd, hs]
    · cases hd0 : decode e0 with
      | error msg => simpa [try_decode_until_marker, hd0] using ih enc t hmem hd hs
      | ok t0 =>
        cases hs0 : search t0 with
        | error msg => simpa [try_decode_until_marker, hd0, hs0] using ih enc t hmem hd hs
        | ok b =>
          cases b with
          | true => simp [try_decode_until_marker, hd0, hs0]
          | false => simpa [try_decode_until_marker, hd0, hs0] using ih enc t hmem hd hs

/-- C3: the decoder returns the (text, encoding) pair of the first
candidate, in list order, that both strictly decodes and whose decoded
text contains a marker match; no later candidate influences the result
(the tail l2 is arbitrary). In particular, when the bytes decode under two
candidates but only the second yields a marker match, the second is
returned, never the first. -/
theorem C3_first_success_wins (decode : String → Except String (List Char))
    (search : List Char → Except String Bool) (l1 l2 : List String)
    (e : String) (t : List Char)
    (h1 : ∀ x ∈ l1, ∀ u, decode x = .ok u → search u ≠ .ok true)
    (hd : decode e = .ok t) (hs : search t = .ok true) :
    try_decode_until_marker decode search (l1 ++ e :: l2) = some (t, e) := by
  induction l1 with
  | nil => simp [try_decode_until_marker, hd, hs]
  | cons x l1 ih =>
    have hrest := fun y hy => h1 y (List.mem_cons_of_mem _ hy)
    cases hdx : decode x with
    | error msg => simpa [try_decode_until_marker, hdx] using ih hrest
    | ok u =>
      cases hsu : search u with
      | error msg => simpa [try_decode_until_marker, hdx, hsu] using ih hrest
      | ok b =>
        cases b with
        | true => exact absurd hsu (h1 x (by simp) u hdx)
        | false => simpa [try_decode_until_marker, hdx, hsu] using ih hrest

/-- C3 witness: bytes valid under both gbk and utf-8, marker-matching only
under utf-8; the decoder returns the utf-8 text, never the gbk one. -/
theorem C3_witness :
    try_decode_until_marker decode3 search3 (["gbk"] ++ "utf-8" :: []) =
      some ((("第1章 x").data), "utf-8") := by
  refine C3_first_success_wins decode3 search3 ["gbk"] [] "utf-8" (("第1章 x").data)
    ?_ (by rfl) (by rfl)
  intro x hx u hdu
  have hxg : x = "gbk" := by simpa using hx
  subst hxg
  simp only [decode3, if_pos rfl] at hdu
  injection hdu with hdu
  subst hdu
  intro hcontra
  have hdec : (decide ((("mojibake").data) = (("第1章 x").data))) = true := by
    have := hcontra
    simp only [search3] at this
    injection this
  simp at hdec

/-- C4 counterexample: with a syntactically invalid pattern (the search
oracle raises on every text) and candidates that all decode, the decoder
does not fail fast with a distinct configuration error: it runs through
the candidates and returns none, the very same value an ordinary decode
failure produces, so the two conditions are indistinguishable to the
caller. -/
theorem C4_counterexample :
    try_decode_until_marker decodeAll searchErr ["gb18030", "utf-8"] = none ∧
    try_decode_until_marker decodeAll searchErr ["gb18030", "utf-8"] =
      try_decode_until_marker decodeAll searchFalse ["gb18030", "utf-8"] :=
  ⟨rfl, rfl⟩

/-- C4 amended: when the supplied pattern is syntactically invalid, every
per-candidate search raises, each exception is caught inside the loop, and
the decoder returns the sentinel none after the candidate list is
exhausted; no configuration error distinct from decode failure exists. -/
theorem C4_amended_invalid_pattern (decode : String → Except String (List Char))
    (search : List Char → Except String Bool) (encs : List String)
    (hinv : ∀ t, ∃ msg, search t = .error msg) :
    try_decode_until_marker decode search encs = none := by
  induction encs with
  | nil => rfl
  | cons enc rest ih =>
    cases hd : decode enc with
    | error msg => simp [try_decode_until_marker, hd, ih]
    | ok t =>
      obtain ⟨msg, hs⟩ := hinv t
      simp [try_decode_until_marker, hd, hs, ih]

/-- C4 amended witness: an always-raising search over two decodable
candidates yields the sentinel none. -/
theorem C4_witness :
    try_decode_until_marker decodeAll searchErr ["gb18030", "utf-8"] = none :=
  C4_amended_invalid_pattern decodeAll searchErr ["gb18030", "utf-8"]
    (fun _ => ⟨"invalid pattern", rfl⟩)

/-- C5 counterexample: two different candidate lists, both failing, give
the identical failure value none; a failure value that carried the list of
tried encodings would have to differ between the two calls, so the
decoder failure carries no triedEncodings record. -/
theorem C5_counterexample :
    (try_decode_until_marker decodeFail searchTrue ["gbk"] =
      try_decode_until_marker decodeFail searchTrue ["gbk", "utf-8"]) ∧
    ("gbk" :: ([] : List String)) ≠ ["gbk", "utf-8"] :=
  ⟨rfl, by decide⟩

/-- C5 amended: hard failures do reach the immediate caller, but not as
typed values carrying data: whenever every candidate fails, the decoder
result is the same sentinel none whatever the candidate list was, so the
failure carries no record of the tried encodings. -/
theorem C5_amended_failure_carries_nothing
    (decode : String → Except String (List Char))
    (search : List Char → Except String Bool) (encs encs2 : List String)
    (h : ∀ enc ∈ encs, ∀ t, decode enc = .ok t → search t ≠ .ok true)
    (h2 : ∀ enc ∈ encs2, ∀ t, decode enc = .ok t → search t ≠ .ok true) :
    try_decode_until_marker decode search encs =
      try_decode_until_marker decode search encs2 := by
  rw [tdm_none_of_fail decode search encs h, tdm_none_of_fail decode search encs2 h2]

/-- C5 amended witness: with a decoder that fails on every candidate, a
one-element and a three-element candidate list give the same failure
value. -/
theorem C5_witness :
    try_decode_until_marker decodeFail searchTrue ["gbk"] =
      try_decode_until_marker decodeFail searchTrue ["gbk", "utf-8", "big5"] := by
  refine C5_amended_failure_carries_nothing decodeFail searchTrue _ _ ?_ ?_ <;>
    · intro enc henc t hd
      simp [decodeFail] at hd

/-- C10: the decode loop is total over arbitrary oracles: the result type
has no exception channel, every per-candidate exception (unknown encoding,
strict decode failure, invalid pattern) is absorbed by the loop, and the
result is the sentinel none exactly when no candidate both decodes and
yields a marker match. -/
theorem C10_total_sentinel_failure (decode : String → Except String (List Char))
    (search : List Char → Except String Bool) (encs : List String) :
    try_decode_until_marker decode search encs = none ↔
      ∀ enc ∈ encs, ∀ t, decode enc = .ok t → search t ≠ .ok true := by
  constructor
  · intro h enc henc t hd hs
    exact tdm_ne_none_of_success decode search encs enc t henc hd hs h
  · exact tdm_none_of_fail decode search encs

/-- C10 witness: with candidates that are all unknown encodings (decode
raises on each), the loop absorbs every exception and returns none. -/
theorem C10_witness :
    try_decode_until_marker decodeFail searchTrue ["utf-32"] = none :=
  (C10_total_sentinel_failure decodeFail searchTrue ["utf-32"]).mpr
    (by intro enc henc t hd; simp [decodeFail] at hd)

/- Helper lemmas about the chapter loop. -/

/-- The loop appends exactly one chapter per match. -/
theorem chapterLoop_length (text : List Char) :
    ∀ ms : List RMatch, (chapterLoop text ms).length = ms.length := by
  intro ms
  induction ms with
  | nil => rfl
  | cons m rest ih => simp [chapterLoop, ih]

/-- Pointwise description of the loop output: the chapter at index i is
built from the match at index i, its body span bounded by the start of
match i+1 (or the text length for the last match). -/
theorem chapterLoop_get (text : List Char) :
    ∀ (ms : List RMatch) (i : Nat) (m : RMatch), ms.get? i = some m →
      (chapterLoop text ms).get? i =
        some ⟨pyStrip m.full, pyStrip (pySlice text m.e (nextStart text.length ms i))⟩ := by
  intro ms
  induction ms with
  | nil => intro i m h; simp at h
  | cons m0 rest ih =>
    intro i m h
    cases i with
    | zero =>
      have hm : m0 = m := by simpa using h
      subst hm
      cases rest with
      | nil => simp [chapterLoop, nextStart]
      | cons m2 t => simp [chapterLoop, nextStart]
    | succ j =>
      have h2 : rest.get? j = some m := by simpa using h
      have := ih j m h2
      simpa [chapterLoop, nextStart] using this

/-- A successful partition is never the empty list: it only happens when
matches exist, and the loop emits one chapter per match. -/
theorem partition_ok_ne_nil (text : List Char)
    (mat : Nat → Option (Nat × List Char)) (cs : List Chapter)
    (h : partitionChapters text mat = .ok cs) : cs ≠ [] := by
  unfold partitionChapters at h
  by_cases hm : (finditer mat text.length).isEmpty
  · simp [hm] at h
  · simp [hm] at h
    intro hnil
    apply hm
    have := chapterLoop_length text (finditer mat text.length)
    rw [h, hnil] at this
    simpa [List.isEmpty_iff] using this.symm

/- Helper lemmas about the finditer scan. -/

/-- An empty scan result means no position of the scanned range holds a
match, given enough fuel to cover the range. -/
theorem finditerAux_empty (mat : Nat → Option (Nat × List Char)) (len : Nat) :
    ∀ fuel pos : Nat, finditerAux mat len fuel pos = [] → len + 1 ≤ fuel + pos →
      ∀ q, pos ≤ q → q ≤ len → mat q = none := by
  intro fuel
  induction fuel with
  | zero => intro pos h hf q hq1 hq2; omega
  | succ fuel ih =>
    intro pos h hf q hq1 hq2
    rw [finditerAux] at h
    by_cases hp : len < pos
    · omega
    · rw [if_neg hp] at h
      cases hm : mat pos with
      | none =>
        rw [hm] at h
        rcases Nat.eq_or_lt_of_le hq1 with heq | hlt
        · exact heq ▸ hm
        · exact ih (pos + 1) h (by omega) q (by omega) hq2
      | some pr =>
        rw [hm] at h
        simp at h

/-- The head of a scan result is the first match at or after the scan
position: no earlier position in the range holds a match. -/
theorem finditerAux_head (mat : Nat → Option (Nat × List Char)) (len : Nat) :
    ∀ (fuel pos : Nat) (m : RMatch) (tail : List RMatch),
      finditerAux mat len fuel pos = m :: tail →
      pos ≤ m.s ∧ mat m.s = some (m.e, m.full) ∧
        ∀ q, pos ≤ q → q < m.s → mat q = none := by
  intro fuel
  induction fuel with
  | zero => intro pos m tail h; simp [finditerAux] at h
  | succ fuel ih =>
    intro pos m tail h
    rw [finditerAux] at h
    by_cases hp : len < pos
    · simp [if_pos hp] at h
    · rw [if_neg hp] at h
      cases hm : mat pos with
      | none =>
        rw [hm] at h
        obtain ⟨h1, h2, h3⟩ := ih (pos + 1) m tail h
        refine ⟨by omega, h2, ?_⟩
        intro q hq1 hq2
        rcases Nat.eq_or_lt_of_le hq1 with heq | hlt
        · exact heq ▸ hm
        · exact h3 q (by omega) hq2
      | some pr =>
        rw [hm] at h
        injection h with h1 h2
        subst h1
        refine ⟨Nat.le_refl _, by simpa using hm, ?_⟩
        intro q hq1 hq2
        simp at hq2
        omega

/-- Unfolding of the tail of a scan result: it is itself a scan from the
resumption position, with enough remaining fuel. -/
theorem finditerAux_tail (mat : Nat → Option (Nat × List Char)) (len : Nat) :
    ∀ (fuel pos : Nat) (m : RMatch) (tail : List RMatch),
      len + 1 ≤ fuel + pos → finditerAux mat len fuel pos = m :: tail →
      ∃ fuel2, len + 1 ≤ fuel2 + max m.e (m.s + 1) ∧
        tail = finditerAux mat len fuel2 (max m.e (m.s + 1)) := by
  intro fuel
  induction fuel with
  | zero => intro pos m tail hf h; simp [finditerAux] at h
  | succ fuel ih =>
    intro pos m tail hf h
    rw [finditerAux] at h
    by_cases hp : len < pos
    · simp [if_pos hp] at h
    · rw [if_neg hp] at h
      cases hm : mat pos with
      | none =>
        rw [hm] at h
        exact ih (pos + 1) m tail (by omega) h
      | some pr =>
        rw [hm] at h
        injection h with h1 h2
        subst h1
        exact ⟨fuel, by simp; omega, h2.symm⟩

/-- Every match emitted by a scan starts at or after the scan position. -/
theorem finditerAux_lb (mat : Nat → Option (Nat × List Char)) (len : Nat) :
    ∀ fuel pos : Nat, ∀ m ∈ finditerAux mat len fuel pos, pos ≤ m.s := by
  intro fuel
  induction fuel with
  | zero => intro pos m hm; simp [finditerAux] at hm
  | succ fuel ih =>
    intro pos m hm
    rw [finditerAux] at hm
    by_cases hp : len < pos
    · simp [if_pos hp] at hm
    · rw [if_neg hp] at hm
      cases hq : mat pos with
      | none =>
        rw [hq] at hm
        have := ih (pos + 1) m hm
        omega
      | some pr =>
        rw [hq] at hm
        rcases List.mem_cons.mp hm with heq | hmem
        · subst heq; exact Nat.le_refl _
        · have := ih (max pr.1 (pos + 1)) m hmem
          omega

/-- The match start offsets of a scan result are strictly increasing. -/
theorem finditerAux_sorted (mat : Nat → Option (Nat × List Char)) (len : Nat) :
    ∀ fuel pos : Nat,
      List.Chain' (fun a b : RMatch => a.s < b.s) (finditerAux mat len fuel pos) := by
  intro fuel
  induction fuel with
  | zero => simp [finditerAux]
  | succ fuel ih =>
    intro pos
    rw [finditerAux]
    by_cases hp : len < pos
    · simp [if_pos hp]
    · rw [if_neg hp]
      cases hq : mat pos with
      | none => exact ih (pos + 1)
      | some pr =>
        rw [List.chain'_cons']
        refine ⟨?_, ih (max pr.1 (pos + 1))⟩
        intro y hy
        have hmem := List.mem_of_mem_head? hy
        have := finditerAux_lb mat len fuel (max pr.1 (pos + 1)) y hmem
        simp only
        omega

/-- The step from an index in a cons list to the same index in its tail,
for the body span bound. -/
theorem nextStart_cons_succ (tl : Nat) (m0 : RMatch) (rest : List RMatch) (i : Nat) :
    nextStart tl (m0 :: rest) (i + 1) = nextStart tl rest i := by
  simp [nextStart]

/-- Core gap property of the scan: between the end offset of the match at
index i and the start offset of the match at index i+1 (or the end of the
scanned range for the last match) no position holds a match, provided
every match of the oracle has positive width. -/
theorem finditerAux_gap (mat : Nat → Option (Nat × List Char)) (len : Nat)
    (hpos : ∀ p pe f, mat p = some (pe, f) → p < pe) :
    ∀ (i fuel pos : Nat) (m : RMatch), len + 1 ≤ fuel + pos →
      (finditerAux mat len fuel pos).get? i = some m →
      ∀ q, m.e ≤ q → q < nextStart len (finditerAux mat len fuel pos) i →
        mat q = none := by
  intro i
  induction i with
  | zero =>
    intro fuel pos m hf h q hq1 hq2
    cases hms : finditerAux mat len fuel pos with
    | nil => rw [hms] at h; simp at h
    | cons m0 tail =>
      rw [hms] at h hq2
      have hm0 : m0 = m := by simpa using h
      subst hm0
      have hhead := finditerAux_head mat len fuel pos m0 tail hms
      have hwid : m0.s < m0.e := hpos m0.s m0.e m0.full hhead.2.1
      have hmax : max m0.e (m0.s + 1) = m0.e := by omega
      obtain ⟨fuel2, hf2, htail⟩ := finditerAux_tail mat len fuel pos m0 tail hf hms
      rw [hmax] at hf2 htail
      cases tail with
      | nil =>
        have hns : nextStart len (m0 :: ([] : List RMatch)) 0 = len := by
          simp [nextStart]
        rw [hns] at hq2
        exact finditerAux_empty mat len fuel2 m0.e htail.symm hf2 q hq1 (by omega)
      | cons m1 tail2 =>
        have hns : nextStart len (m0 :: m1 :: tail2) 0 = m1.s := by
          simp [nextStart]
        rw [hns] at hq2
        have hhead2 := finditerAux_head mat len fuel2 m0.e m1 tail2 htail.symm
        exact hhead2.2.2 q hq1 hq2
  | succ i ih =>
    intro fuel pos m hf h q hq1 hq2
    cases hms : finditerAux mat len fuel pos with
    | nil => rw [hms] at h; simp at h
    | cons m0 tail =>
      rw [hms] at h hq2
      have h2 : tail.get? i = some m := by simpa using h
      rw [nextStart_cons_succ] at hq2
      obtain ⟨fuel2, hf2, htail⟩ := finditerAux_tail mat len fuel pos m0 tail hf hms
      rw [htail] at h2 hq2
      exact ih fuel2 (max m0.e (m0.s + 1)) m hf2 h2 q hq1 hq2

/-- C1: for a text whose chapter pattern yields N >= 1 matches, the
chapter loop of split_novel produces exactly N chapter records; the match
start offsets are strictly increasing, and the record at index i pairs
the trimmed captured full group of match i with the trimmed text from the
end offset of match i to the start offset of match i+1 (to end-of-text
for the last match), so records follow ascending match-start order and a
match whose trimmed full group is empty still yields a retained record. -/
theorem C1_partitioner_spec (text : List Char)
    (mat : Nat → Option (Nat × List Char))
    (hne : finditer mat text.length ≠ []) :
    (chapterLoop text (finditer mat text.length)).length =
        (finditer mat text.length).length ∧
    1 ≤ (chapterLoop text (finditer mat text.length)).length ∧
    List.Chain' (fun a b : RMatch => a.s < b.s) (finditer mat text.length) ∧
    ∀ i m, (finditer mat text.length).get? i = some m →
      (chapterLoop text (finditer mat text.length)).get? i =
        some ⟨pyStrip m.full,
              pyStrip (pySlice text m.e
                (nextStart text.length (finditer mat text.length) i))⟩ := by
  refine ⟨chapterLoop_length text _, ?_, finditerAux_sorted mat text.length _ 0,
    chapterLoop_get text _⟩
  rw [chapterLoop_length text _]
  exact List.length_pos.mpr hne

/-- Chapter oracle for the C1 witness: a match at position 0 and a second
match at position 2 whose captured full group is whitespace only, so its
trimmed title is empty. -/
def mat1 : Nat → Option (Nat × List Char) := fun p =>
  if p = 0 then some (1, ("A").data)
  else if p = 2 then some (4, ("  ").data) else none

/-- Text for the C1 witness. -/
def text1 : List Char := ("Axy z w").data

/-- C1 witness: two matches give two chapters; the second match has a
whitespace-only full group and is still retained, as a record with an
empty title. -/
theorem C1_witness :
    (chapterLoop text1 (finditer mat1 text1.length)).length =
        (finditer mat1 text1.length).length ∧
    (chapterLoop text1 (finditer mat1 text1.length)).get? 1 =
      some ⟨pyStrip (("  ").data),
            pyStrip (pySlice text1 4
              (nextStart text1.length (finditer mat1 text1.length) 1))⟩ :=
  ⟨(C1_partitioner_spec text1 mat1 (by decide)).1,
   (C1_partitioner_spec text1 mat1 (by decide)).2.2.2 1 ⟨2, 4, ("  ").data⟩ (by decide)⟩

/-- C2: when the chapter pattern has zero matches, the partition step of
split_novel raises the no-chapters exception; and a successful partition
never carries an empty chapter list. -/
theorem C2_zero_matches_fails (text : List Char)
    (mat : Nat → Option (Nat × List Char)) :
    (finditer mat text.length = [] →
      partitionChapters text mat = .error NoChaptersFoundError) ∧
    ∀ cs, partitionChapters text mat = .ok cs → cs ≠ [] := by
  constructor
  · intro h
    simp [partitionChapters, h]
  · exact partition_ok_ne_nil text mat

/-- C2 witness: a two-character text with no chapter match makes the
partition step fail with the no-chapters exception. -/
theorem C2_witness :
    partitionChapters (("ab").data) matNone = .error NoChaptersFoundError :=
  (C2_zero_matches_fails (("ab").data) matNone).1 rfl

/-- C9: no match of the chapter pattern begins inside any chapter body
span: for match i of the scan, every position from its end offset up to
(but excluding) the start offset of match i+1 — or the text length for
the last match — holds no match, provided the pattern only produces
matches of positive width (true of the chapter marker patterns in use,
which always consume at least one character). -/
theorem C9_no_match_in_body_span (mat : Nat → Option (Nat × List Char))
    (len : Nat) (hpos : ∀ p pe f, mat p = some (pe, f) → p < pe)
    (i : Nat) (m : RMatch) (hm : (finditer mat len).get? i = some m)
    (q : Nat) (hq1 : m.e ≤ q)
    (hq2 : q < nextStart len (finditer mat len) i) : mat q = none :=
  finditerAux_gap mat len hpos i (len + 1) 0 m (by omega) hm q hq1 hq2

/-- Chapter oracle for the C9 witness: one positive-width match at
position 0 ending at 2, in a text of length 4. -/
def mat9 : Nat → Option (Nat × List Char) := fun p =>
  if p = 0 then some (2, ("T").data) else none

/-- Every match of mat9 has positive width. -/
theorem mat9_pos : ∀ p pe f, mat9 p = some (pe, f) → p < pe := by
  intro p pe f h
  unfold mat9 at h
  by_cases hp : p = 0
  · rw [if_pos hp] at h
    injection h with h1
    injection h1 with h2 h3
    omega
  · rw [if_neg hp] at h
    exact absurd h (by simp)

/-- C9 witness: position 3 lies in the body span of the single match
(end offset 2, span up to the text length 4) and holds no match. -/
theorem C9_witness : mat9 3 = none :=
  C9_no_match_in_body_span mat9 4 mat9_pos 0 ⟨0, 2, ("T").data⟩ (by decide)
    3 (by decide) (by decide)

/-- Text of the failing input for the summary extraction: a line B that
the alternation branch of the summary pattern matches without binding the
summary group, then a chapter heading and a body line. -/
def text6 : List Char := ("B\n第一章 开端\n正文").data

/-- Chapter oracle of the failing input: the heading 第一章 开端 matches at
position 2 and ends at position 8. -/
def mat6 : Nat → Option (Nat × List Char) := fun p =>
  if p = 2 then some (8, ("第一章 开端").data) else none

/-- C6 at the failing input: when the summary search matches but its group
named summary did not participate (Python value None, as produced by the
pattern (?P<summary>A)|B on a text containing B but not A), line 86 calls
.strip() on None and split_novel raises AttributeError instead of falling
back to the default summary — extraction is not failure-free. -/
theorem C6_summary_extraction_raises :
    split_novel text6 none (some none) mat6 =
      .error (PyError.attributeError attrMsg) := rfl

/-- C8: on every successful segmentation the chapter list is non-empty and
the latestChapter field of the meta block equals the title of the final
chapter of the produced sequence; the defensive branch of line 114 yields
the empty string on an empty list. -/
theorem C8_latest_chapter (text : List Char) (titleRes : Option TitleGroups)
    (summaryRes : Option (Option (List Char)))
    (mat : Nat → Option (Nat × List Char)) (r : SplitResult)
    (h : split_novel text titleRes summaryRes mat = .ok r) :
    latestOf [] = [] ∧ r.chapters ≠ [] ∧
    ∃ c, r.chapters.getLast? = some c ∧ r.meta.latestChapter = c.title := by
  refine ⟨rfl, ?_, ?_⟩ <;>
  · unfold split_novel at h
    cases hsum : computeSummary summaryRes with
    | error err => rw [hsum] at h; exact absurd h (by simp)
    | ok summary =>
      rw [hsum] at h
      cases hpart : partitionChapters text mat with
      | error err => rw [hpart] at h; exact absurd h (by simp)
      | ok cs =>
        rw [hpart] at h
        have hne := partition_ok_ne_nil text mat cs hpart
        have hr : r = ⟨⟨bookNameOf titleRes, authorOf titleRes, latestOf cs, summary⟩,
            cs⟩ := by
          injection h with h1
          exact h1.symm
        subst hr
        simp only
        first
        | exact hne
        | · cases hlast : cs.getLast? with
            | none => exact absurd (by simpa using hlast) hne
            | some c => exact ⟨c, rfl, by simp [latestOf, hlast]⟩

/-- Chapter oracle for the C8 witness: one match at position 0 ending at
offset 2 with full group T1. -/
def mat8 : Nat → Option (Nat × List Char) := fun p =>
  if p = 0 then some (2, ("T1").data) else none

/-- Text for the C8 witness. -/
def text8 : List Char := ("T1ab").data

/-- The result split_novel produces on the C8 witness input. -/
def r8 : SplitResult :=
  ⟨⟨("UnknownBook").data, ("UnknownAuthor").data, ("T1").data,
    ("No summary available.").data⟩,
   [⟨("T1").data, ("ab").data⟩]⟩

/-- C8 witness: a concrete successful run whose latestChapter equals the
title of its final (only) chapter. -/
theorem C8_witness :
    r8.chapters ≠ [] ∧
    ∃ c, r8.chapters.getLast? = some c ∧ r8.meta.latestChapter = c.title :=
  (C8_latest_chapter text8 none none mat8 r8 (by rfl)).2

/- Helper lemmas about stripping, for the body-retention analysis. -/

/-- The head of a dropWhile result never satisfies the dropped test. -/
theorem dropWhile_head_not (p : Char → Bool) :
    ∀ (l : List Char) (a : Char), (l.dropWhile p).head? = some a → p a = false := by
  intro l
  induction l with
  | nil => intro a h; simp at h
  | cons c l ih =>
    intro a h
    rw [List.dropWhile_cons] at h
    by_cases hc : p c
    · rw [if_pos hc] at h
      exact ih a h
    · rw [if_neg hc] at h
      have : c = a := by simpa using h
      subst this
      simpa using hc

/-- dropWhile keeps the last element of a list when its result is
non-empty. -/
theorem dropWhile_getLast (p : Char → Bool) :
    ∀ l : List Char, l.dropWhile p ≠ [] → (l.dropWhile p).getLast? = l.getLast? := by
  intro l
  induction l with
  | nil => simp
  | cons c l ih =>
    intro h
    rw [List.dropWhile_cons] at h ⊢
    by_cases hc : p c
    · rw [if_pos hc] at h ⊢
      have hl : l ≠ [] := by
        intro he
        rw [he] at h
        simp at h
      obtain ⟨x, t, rfl⟩ := List.exists_cons_of_ne_nil hl
      rw [List.getLast?_cons_cons]
      exact ih h
    · rw [if_neg hc]

/-- When a non-empty trimmed block is followed by arbitrary text, the
head of the trimmed block is not whitespace. -/
theorem pyStrip_head (s : List Char) :
    ∀ a, (pyStrip s).head? = some a → isSpace a = false := by
  intro a h
  unfold pyStrip at h
  rw [List.head?_reverse] at h
  have hne : (((s.dropWhile isSpace).reverse).dropWhile isSpace) ≠ [] := by
    intro he
    rw [he] at h
    simp at h
  rw [dropWhile_getLast isSpace _ hne] at h
  rw [List.getLast?_reverse] at h
  exact dropWhile_head_not isSpace _ a h

/-- Read backwards, a trimmed block also starts with a character that is
not whitespace. -/
theorem pyStrip_reverse_head (s : List Char) :
    ∀ b, (pyStrip s).reverse.head? = some b → isSpace b = false := by
  intro b h
  unfold pyStrip at h
  rw [List.reverse_reverse] at h
  exact dropWhile_head_not isSpace _ b h

/-- Dropping over a list with a pinned non-dropped element keeps that
element and everything after it. -/
theorem dropWhile_append_pivot (p : Char → Bool) (b : Char) (hb : p b = false)
    (V : List Char) :
    ∀ xs : List Char, ∃ t, (xs ++ b :: V).dropWhile p = t ++ b :: V := by
  intro xs
  induction xs with
  | nil => exact ⟨[], by simp [List.dropWhile_cons, hb]⟩
  | cons x xs ih =>
    by_cases hx : p x
    · obtain ⟨t, ht⟩ := ih
      refine ⟨t, ?_⟩
      rw [List.cons_append, List.dropWhile_cons, if_pos hx]
      exact ht
    · exact ⟨x :: xs, by rw [List.cons_append, List.dropWhile_cons, if_neg hx]⟩

/-- Stripping a block that already starts and ends with non-whitespace
characters, followed by arbitrary text, keeps the whole block as a head
segment of the result. -/
theorem pyStrip_append_of_stripped (T rest : List Char) (hne : T ≠ [])
    (hhead : ∀ a, T.head? = some a → isSpace a = false)
    (hlast : ∀ b, T.reverse.head? = some b → isSpace b = false) :
    ∃ r, pyStrip (T ++ rest) = T ++ r := by
  obtain ⟨a, T2, rfl⟩ := List.exists_cons_of_ne_nil hne
  have ha : isSpace a = false := hhead a rfl
  have hne2 : (a :: T2).reverse ≠ [] := by simp
  obtain ⟨b, W, hbW⟩ := List.exists_cons_of_ne_nil hne2
  have hb : isSpace b = false := hlast b (by rw [hbW]; rfl)
  obtain ⟨t, ht⟩ := dropWhile_append_pivot isSpace b hb W rest.reverse
  refine ⟨t.reverse, ?_⟩
  unfold pyStrip
  have h1 : ((a :: T2) ++ rest).dropWhile isSpace = (a :: T2) ++ rest := by
    rw [List.cons_append, List.dropWhile_cons, if_neg (by simp [ha])]
  rw [h1, List.reverse_append (a :: T2) rest, hbW, ht,
    List.reverse_append t (b :: W), ← hbW, List.reverse_reverse]

/-- Chapter oracle of the C7 scenario, over the text CH1CH1x(newline)CH2y:
as with a line-anchored pattern, CH1 matches at the line start 0 and CH2
at the line start 8, while the repeated CH1 at offset 3 is mid-line and
matches nowhere. -/
def mat7 : Nat → Option (Nat × List Char) := fun p =>
  if p = 0 then some (3, ("CH1").data)
  else if p = 8 then some (11, ("CH2").data) else none

/-- Text of the C7 scenario. -/
def text7 : List Char := ("CH1CH1x\nCH2y").data

/-- C7 counterexample: in the C7 scenario the first chapter has title CH1
and a raw body span that begins with a repetition of that title; the
produced body keeps the duplicated leading title text — split_novel
performs no deduplication, only whitespace trimming. -/
theorem C7_counterexample :
    (finditer mat7 text7.length).get? 0 = some ⟨0, 3, ("CH1").data⟩ ∧
    pySlice text7 3 (nextStart text7.length (finditer mat7 text7.length) 0) =
      ("CH1").data ++ ("x\n").data ∧
    (chapterLoop text7 (finditer mat7 text7.length)).get? 0 =
      some ⟨("CH1").data, ("CH1").data ++ ("x").data⟩ := by
  refine ⟨?_, ?_, ?_⟩ <;> decide

/-- C7 amended: the produced body is the raw span trimmed of whitespace
only; whenever the raw body span of a chapter begins with the chapter's
own non-empty trimmed title, the produced body retains that duplicated
leading title text. (A duplicated title line that the chapter pattern
itself matches is instead consumed as a separate chapter heading and
never belongs to a body span.) -/
theorem C7_amended_retention (text : List Char) (ms : List RMatch) (i : Nat)
    (m : RMatch) (rest : List Char) (hm : ms.get? i = some m)
    (hraw : pySlice text m.e (nextStart text.length ms i) = pyStrip m.full ++ rest)
    (hne : pyStrip m.full ≠ []) :
    ∃ r, (chapterLoop text ms).get? i =
      some ⟨pyStrip m.full, pyStrip m.full ++ r⟩ := by
  have hget := chapterLoop_get text ms i m hm
  rw [hraw] at hget
  obtain ⟨r, hr⟩ := pyStrip_append_of_stripped (pyStrip m.full) rest hne
    (pyStrip_head m.full) (pyStrip_reverse_head m.full)
  rw [hr] at hget
  exact ⟨r, hget⟩

/-- C7 amended witness: in the C7 scenario the first produced body begins
with the duplicated title. -/
theorem C7_witness :
    ∃ r, (chapterLoop text7 (finditer mat7 text7.length)).get? 0 =
      some ⟨pyStrip (("CH1").data), pyStrip (("CH1").data) ++ r⟩ :=
  C7_amended_retention text7 (finditer mat7 text7.length) 0 ⟨0, 3, ("CH1").data⟩
    (("x\n").data) (by decide) (by decide) (by decide)
